import Mathlib

/-!
Verification development for the artela-rollkit simulation, gas-estimation
and tracing pipeline (ethereum/rpc/backend.go, ethereum/rpc/api/txpool.go,
ethereum/rpc/types utilities) together with the aspect system-contract
dispatcher.  Each Go function the claims touch is shallowly embedded as an
executable Lean definition; external collaborators (the message executor,
query clients, handler bodies) are parameters of those definitions.
-/

set_option autoImplicit false

namespace ArtelaRpc

/-- Protocol minimum transaction gas, ethparams.TxGas in the source. -/
def TxGas : Nat := 21000

/-- Error string of vm.ErrOutOfGas in go-ethereum. -/
def errOutOfGas : String := "out of gas"

/-- Error string of vm.ErrExecutionReverted in go-ethereum. -/
def errExecutionReverted : String := "execution reverted"

/-- Embedding of types.MsgEthereumTxResponse: VM error string (empty on
success), return or revert data, number of emitted logs, and gas used.
Only the number of logs matters to any claim, so the Logs slice is kept
as its length. -/
structure Rsp where
  vmError : String
  ret : List Nat
  logs : Nat
  gasUsed : Nat
  deriving DecidableEq, Repr

/-- Executor-level error classification of ApplyMessageWithConfig as the
EstimateGas code distinguishes it: errors.Is(err, core.ErrIntrinsicGas)
versus any other non-nil error. -/
inductive ExecErr where
  | intrinsicGas
  | other (msg : String)
  deriving DecidableEq, Repr

/-- The message-executor boundary used by the gas estimator: one probe at a
given gas allowance either returns a response or an executor-level error. -/
abbrev Executor := Nat → Except ExecErr Rsp

/-- Embedding of the executable closure inside Keeper.EstimateGas
(txpool.go lines 997-1018): an intrinsic-gas error is classified as a
failed probe with no response and no surfaced error, any other executor
error is surfaced (BinSearch bails out on it), and an executed response is
failed exactly when its VM error string is non-empty. -/
def executable (exec : Executor) (gas : Nat) : Except String (Bool × Option Rsp) :=
  match exec gas with
  | .error .intrinsicGas => .ok (true, none)
  | .error (.other msg) => .error msg
  | .ok rsp => .ok (decide (0 < rsp.vmError.length), some rsp)

/-- Fuel-indexed body of the binary search loop.  Each iteration with
lo + 1 < hi probes the midpoint (hi + lo) / 2 and moves lo up on a failed
probe or hi down on a successful one, so hi - lo strictly decreases and
hi - lo is enough fuel; with hi - lo ≤ 0 the loop guard is already false
and the loop exits with hi, which is also what the fuel-exhausted branch
returns. -/
def binSearchFuel (fuel : Nat) (lo hi : Nat)
    (f : Nat → Except String (Bool × Option Rsp)) : Except String Nat :=
  match fuel with
  | 0 => .ok hi
  | fuel + 1 =>
    if lo + 1 < hi then
      let mid := (hi + lo) / 2
      match f mid with
      | .error e => .error e
      | .ok (failed, _) =>
        if failed then binSearchFuel fuel mid hi f
        else binSearchFuel fuel lo mid f
    else .ok hi

/-- Modelled from the spec: types.BinSearch (x/evm/types) is called by
Keeper.EstimateGas but its source is not under src.  Per spec section 4.4
it is a binary search over the interval from lo (exclusive) to hi
(inclusive) that probes the midpoint, moves the interval upward when the
probe is classified failed, downward when it succeeds, aborts with the
probe error otherwise, and converges to the minimal hi at which the call
succeeds. -/
def BinSearch (lo hi : Nat) (f : Nat → Except String (Bool × Option Rsp)) :
    Except String Nat :=
  binSearchFuel (hi - lo) lo hi f

/-- Errors Keeper.EstimateGas can return, mirroring its return statements:
the gas-cap validation error, an error bubbled up from a probe, the
revert-reason error built by types.NewExecErrorWithReason, a verbatim VM
error string, and the gas-required-exceeds-allowance error carrying the
cap. -/
inductive EstErr where
  | gasCapTooLow
  | fromExec (msg : String)
  | revertWithReason (ret : List Nat)
  | vmVerbatim (msg : String)
  | capExceeded (cap : Nat)
  deriving DecidableEq, Repr

/-- Embedding of the hi initialisation in Keeper.EstimateGas lines 954-965:
take args.Gas when present and at least TxGas, otherwise the block MaxGas
when positive, otherwise req.GasCap. -/
def hiInit (argsGas : Option Nat) (blockMaxGas : Option Int) (reqGasCap : Nat) : Nat :=
  match argsGas with
  | some g => if TxGas ≤ g then g else hiBlock
  | none => hiBlock
where
  hiBlock : Nat :=
    match blockMaxGas with
    | some m => if 0 < m then m.toNat else reqGasCap
    | none => reqGasCap

/-- Embedding of the recap in Keeper.EstimateGas lines 967-970: the highest
gas allowance is capped by req.GasCap when that is non-zero. -/
def effectiveHi (argsGas : Option Nat) (blockMaxGas : Option Int) (reqGasCap : Nat) : Nat :=
  let hi := hiInit argsGas blockMaxGas reqGasCap
  if reqGasCap ≠ 0 ∧ reqGasCap < hi then reqGasCap else hi

/-- Embedding of Keeper.EstimateGas (txpool.go lines 926-1045) from the
gas-cap validation on: reject caps under TxGas, set lo to TxGas - 1 and hi
to the effective upper bound, binary search with the executable
classification, and when the search converges to the cap re-execute once
at the cap to distinguish revert, out of gas, and other VM errors. -/
def EstimateGas (reqGasCap : Nat) (argsGas : Option Nat) (blockMaxGas : Option Int)
    (exec : Executor) : Except EstErr Nat :=
  if reqGasCap < TxGas then .error .gasCapTooLow
  else
    let lo := TxGas - 1
    let gasCap := effectiveHi argsGas blockMaxGas reqGasCap
    match BinSearch lo gasCap (executable exec) with
    | .error e => .error (.fromExec e)
    | .ok hi =>
      if hi = gasCap then
        match executable exec hi with
        | .error e => .error (.fromExec e)
        | .ok (failed, result) =>
          if failed then
            match result with
            | some r =>
              if r.vmError ≠ errOutOfGas then
                if r.vmError = errExecutionReverted then .error (.revertWithReason r.ret)
                else .error (.vmVerbatim r.vmError)
              else .error (.capExceeded gasCap)
            | none => .error (.capExceeded gasCap)
          else .ok hi
      else .ok hi

/-- Fuel irrelevance: any fuel at least hi - lo runs the loop to the same
answer, because each iteration strictly shrinks hi - lo. -/
theorem binSearchFuel_congr (f : Nat → Except String (Bool × Option Rsp)) :
    ∀ n m lo hi, hi - lo ≤ n → hi - lo ≤ m →
      binSearchFuel n lo hi f = binSearchFuel m lo hi f := by
  intro n
  induction n with
  | zero =>
    intro m lo hi hn _
    match m with
    | 0 => rfl
    | m + 1 =>
      simp only [binSearchFuel]
      have hguard : ¬ lo + 1 < hi := by omega
      simp [hguard]
  | succ n ih =>
    intro m lo hi hn hm
    match m with
    | 0 =>
      simp only [binSearchFuel]
      have hguard : ¬ lo + 1 < hi := by omega
      simp [hguard]
    | m + 1 =>
      simp only [binSearchFuel]
      by_cases hguard : lo + 1 < hi
      · simp only [hguard, if_true]
        cases hf : f ((hi + lo) / 2) with
        | error e => rfl
        | ok pr =>
          obtain ⟨failed, r⟩ := pr
          have hmidlo : lo < (hi + lo) / 2 := by omega
          have hmidhi : (hi + lo) / 2 < hi := by omega
          cases failed with
          | true =>
            simp only [if_true]
            exact ih m ((hi + lo) / 2) hi (by omega) (by omega)
          | false =>
            simp only [if_false, Bool.false_eq_true]
            exact ih m lo ((hi + lo) / 2) (by omega) (by omega)
      · simp [hguard]

/-- One step of BinSearch when the loop guard holds. -/
theorem binSearch_step (f : Nat → Except String (Bool × Option Rsp)) (lo hi : Nat)
    (hguard : lo + 1 < hi) :
    BinSearch lo hi f =
      match f ((hi + lo) / 2) with
      | .error e => .error e
      | .ok (failed, _) =>
        if failed then BinSearch ((hi + lo) / 2) hi f
        else BinSearch lo ((hi + lo) / 2) f := by
  unfold BinSearch
  have hfuel : hi - lo = (hi - lo - 1) + 1 := by omega
  rw [hfuel]
  simp only [binSearchFuel, hguard, if_true]
  cases hf : f ((hi + lo) / 2) with
  | error e => rfl
  | ok pr =>
    obtain ⟨failed, r⟩ := pr
    have hmidlo : lo < (hi + lo) / 2 := by omega
    have hmidhi : (hi + lo) / 2 < hi := by omega
    cases failed with
    | true =>
      simp only [if_true]
      exact binSearchFuel_congr f (hi - lo - 1) (hi - (hi + lo) / 2) ((hi + lo) / 2) hi
        (by omega) (by omega)
    | false =>
      simp only [if_false, Bool.false_eq_true]
      exact binSearchFuel_congr f (hi - lo - 1) ((hi + lo) / 2 - lo) lo ((hi + lo) / 2)
        (by omega) (by omega)

/-- BinSearch with an exhausted bracket returns hi. -/
theorem binSearch_base (f : Nat → Except String (Bool × Option Rsp)) (lo hi : Nat)
    (hguard : ¬ lo + 1 < hi) : BinSearch lo hi f = .ok hi := by
  unfold BinSearch
  cases hfuel : hi - lo with
  | zero => rfl
  | succ n => simp [binSearchFuel, hguard]

/-- A successful BinSearch result never exceeds the initial hi. -/
theorem binSearch_le (f : Nat → Except String (Bool × Option Rsp)) :
    ∀ n lo hi g, binSearchFuel n lo hi f = .ok g → g ≤ hi := by
  intro n
  induction n with
  | zero =>
    intro lo hi g h
    simp only [binSearchFuel] at h
    cases h
    exact Nat.le_refl _
  | succ n ih =>
    intro lo hi g h
    simp only [binSearchFuel] at h
    by_cases hguard : lo + 1 < hi
    · simp only [hguard, if_true] at h
      cases hf : f ((hi + lo) / 2) with
      | error e => rw [hf] at h; cases h
      | ok pr =>
        obtain ⟨failed, r⟩ := pr
        rw [hf] at h
        cases failed with
        | true =>
          simp only [if_true] at h
          exact ih _ _ _ h
        | false =>
          simp only [if_false, Bool.false_eq_true] at h
          have := ih _ _ _ h
          omega
    · simp only [hguard, if_false] at h
      cases h
      exact Nat.le_refl _

/-- A non-empty VM error string is classified as a failed probe. -/
theorem vmError_decide_true (s : String) (h : s ≠ "") :
    decide (0 < s.length) = true := by
  apply decide_eq_true
  rcases s with ⟨l⟩
  cases l with
  | nil => exact absurd rfl h
  | cons c cs => exact Nat.succ_pos cs.length

/-- An empty VM error string is classified as a successful probe. -/
theorem vmError_decide_false (s : String) (h : s = "") :
    decide (0 < s.length) = false := by
  subst h
  rfl

/-- Convergence of the search loop on a monotonic probe classification:
with every probe at or above gstar classified successful and every probe
below classified failed, a bracket with lo < gstar ≤ hi converges exactly
to gstar. -/
theorem binSearchFuel_converges (f : Nat → Except String (Bool × Option Rsp))
    (gstar : Nat)
    (hf : ∀ g, (gstar ≤ g → ∃ r, f g = .ok (false, r)) ∧
      (g < gstar → ∃ r, f g = .ok (true, r))) :
    ∀ n lo hi, hi - lo ≤ n → lo < gstar → gstar ≤ hi →
      binSearchFuel n lo hi f = .ok gstar := by
  intro n
  induction n with
  | zero =>
    intro lo hi hn h1 h2
    exfalso
    omega
  | succ n ih =>
    intro lo hi hn h1 h2
    simp only [binSearchFuel]
    by_cases hguard : lo + 1 < hi
    · simp only [hguard, if_true]
      have hmidlo : lo < (hi + lo) / 2 := by omega
      have hmidhi : (hi + lo) / 2 < hi := by omega
      by_cases hmid : gstar ≤ (hi + lo) / 2
      · obtain ⟨r, hr⟩ := (hf ((hi + lo) / 2)).1 hmid
        rw [hr]
        simp only [if_false, Bool.false_eq_true]
        exact ih lo ((hi + lo) / 2) (by omega) h1 hmid
      · obtain ⟨r, hr⟩ := (hf ((hi + lo) / 2)).2 (by omega)
        rw [hr]
        simp only [if_true]
        exact ih ((hi + lo) / 2) hi (by omega) (by omega) h2
    · simp only [hguard, if_false]
      have : hi = gstar := by omega
      rw [this]

/-- Under the monotonicity hypotheses of claim C1, the executable
classification of Keeper.EstimateGas is monotonic in the sense needed by
the search loop. -/
theorem executable_monotonic (exec : Executor) (gstar : Nat)
    (hsucc : ∀ g, gstar ≤ g → ∃ r, exec g = .ok r ∧ r.vmError = "")
    (hfail : ∀ g, g < gstar →
      exec g = .error .intrinsicGas ∨ ∃ r, exec g = .ok r ∧ r.vmError ≠ "") :
    ∀ g, (gstar ≤ g → ∃ r, executable exec g = .ok (false, r)) ∧
      (g < gstar → ∃ r, executable exec g = .ok (true, r)) := by
  intro g
  constructor
  · intro hg
    obtain ⟨r, hr, hv⟩ := hsucc g hg
    refine ⟨some r, ?_⟩
    simp only [executable, hr, vmError_decide_false r.vmError hv]
  · intro hg
    rcases hfail g hg with hr | ⟨r, hr, hv⟩
    · exact ⟨none, by simp only [executable, hr]⟩
    · exact ⟨some r, by simp only [executable, hr, vmError_decide_true r.vmError hv]⟩

/-- C1: for every executor whose success is monotonic in the gas allowance
(the call succeeds, with empty VM error, for all gas at or above gstar and
fails below it without a hard executor error), with gstar between the
protocol minimum transaction gas and the effective upper bound of the
search, EstimateGas returns exactly gstar, the minimal gas at which the
call succeeds. -/
theorem estimateGas_returns_minimal_gas
    (reqGasCap : Nat) (argsGas : Option Nat) (blockMaxGas : Option Int)
    (exec : Executor) (gstar : Nat)
    (hcap : TxGas ≤ reqGasCap)
    (hg1 : TxGas ≤ gstar)
    (hg2 : gstar ≤ effectiveHi argsGas blockMaxGas reqGasCap)
    (hsucc : ∀ g, gstar ≤ g → ∃ r, exec g = .ok r ∧ r.vmError = "")
    (hfail : ∀ g, g < gstar →
      exec g = .error .intrinsicGas ∨ ∃ r, exec g = .ok r ∧ r.vmError ≠ "") :
    EstimateGas reqGasCap argsGas blockMaxGas exec = .ok gstar := by
  have hmono := executable_monotonic exec gstar hsucc hfail
  have hconv : BinSearch (TxGas - 1) (effectiveHi argsGas blockMaxGas reqGasCap)
      (executable exec) = .ok gstar := by
    unfold BinSearch
    exact binSearchFuel_converges (executable exec) gstar hmono _ _ _
      (Nat.le_refl _) (by unfold TxGas at hg1 ⊢; omega) hg2
  unfold EstimateGas
  have hnotlt : ¬ reqGasCap < TxGas := by omega
  rw [if_neg hnotlt]
  simp only [hconv]
  by_cases heq : gstar = effectiveHi argsGas blockMaxGas reqGasCap
  · simp only [heq, if_true]
    obtain ⟨r, hex⟩ := (hmono (effectiveHi argsGas blockMaxGas reqGasCap)).1 (by omega)
    rw [hex]
    simp
  · simp only [heq, if_false]

/-- Concrete monotonic executor succeeding from gas 21000 upward. -/
def execMono21k : Executor := fun g =>
  if TxGas ≤ g then .ok ⟨"", [], 0, 21000⟩ else .error .intrinsicGas

/-- Witness for C1: with the monotonic executor whose threshold is 21000
and a request cap of 40000, EstimateGas returns exactly 21000. -/
theorem estimateGas_returns_minimal_gas_witness :
    EstimateGas 40000 none none execMono21k = .ok 21000 :=
  estimateGas_returns_minimal_gas 40000 none none execMono21k 21000
    (by decide) (by decide) (by decide)
    (fun g hg => ⟨⟨"", [], 0, 21000⟩, by simp [execMono21k, TxGas] at hg ⊢; omega, rfl⟩)
    (fun g hg => Or.inl (by simp [execMono21k, TxGas] at hg ⊢; omega))

/-- Wrapper of binSearch_le at the fuel BinSearch uses. -/
theorem binSearch_ok_le (f : Nat → Except String (Bool × Option Rsp)) (lo hi g : Nat)
    (h : BinSearch lo hi f = .ok g) : g ≤ hi := by
  unfold BinSearch at h
  exact binSearch_le f (hi - lo) lo hi g h

/-- Zeta-reduced shape of EstimateGas past the gas-cap validation. -/
theorem estimateGas_eq (reqGasCap : Nat) (argsGas : Option Nat) (blockMaxGas : Option Int)
    (exec : Executor) (hnotlt : ¬ reqGasCap < TxGas) :
    EstimateGas reqGasCap argsGas blockMaxGas exec =
      match BinSearch (TxGas - 1) (effectiveHi argsGas blockMaxGas reqGasCap)
          (executable exec) with
      | .error e => .error (.fromExec e)
      | .ok hi =>
        if hi = effectiveHi argsGas blockMaxGas reqGasCap then
          match executable exec hi with
          | .error e => .error (.fromExec e)
          | .ok (failed, result) =>
            if failed then
              match result with
              | some r =>
                if r.vmError ≠ errOutOfGas then
                  if r.vmError = errExecutionReverted then .error (.revertWithReason r.ret)
                  else .error (.vmVerbatim r.vmError)
                else .error (.capExceeded (effectiveHi argsGas blockMaxGas reqGasCap))
              | none => .error (.capExceeded (effectiveHi argsGas blockMaxGas reqGasCap))
            else .ok hi
        else .ok hi := by
  unfold EstimateGas
  rw [if_neg hnotlt]

/-- Any successful EstimateGas answer is bounded by the effective upper
bound of the search, which the cap bounds from above. -/
theorem estimateGas_le (reqGasCap : Nat) (argsGas : Option Nat) (blockMaxGas : Option Int)
    (exec : Executor) (g : Nat)
    (h : EstimateGas reqGasCap argsGas blockMaxGas exec = .ok g) :
    g ≤ effectiveHi argsGas blockMaxGas reqGasCap := by
  by_cases hlt : reqGasCap < TxGas
  · unfold EstimateGas at h
    rw [if_pos hlt] at h
    cases h
  · rw [estimateGas_eq reqGasCap argsGas blockMaxGas exec hlt] at h
    cases hb : BinSearch (TxGas - 1) (effectiveHi argsGas blockMaxGas reqGasCap)
        (executable exec) with
    | error e => rw [hb] at h; cases h
    | ok hi =>
      rw [hb] at h
      simp only at h
      have hle : hi ≤ effectiveHi argsGas blockMaxGas reqGasCap :=
        binSearch_ok_le (executable exec) _ _ _ hb
      by_cases heq : hi = effectiveHi argsGas blockMaxGas reqGasCap
      · rw [if_pos heq] at h
        cases hexe : executable exec hi with
        | error e => rw [hexe] at h; cases h
        | ok pr =>
          obtain ⟨failed, result⟩ := pr
          rw [hexe] at h
          cases failed with
          | true =>
            simp only [if_true] at h
            cases result with
            | none => cases h
            | some r =>
              simp only at h
              by_cases hoog : r.vmError ≠ errOutOfGas
              · rw [if_pos hoog] at h
                by_cases hrev : r.vmError = errExecutionReverted
                · rw [if_pos hrev] at h; cases h
                · rw [if_neg hrev] at h; cases h
              · rw [if_neg hoog] at h; cases h
          | false =>
            simp only [Bool.false_eq_true, if_false] at h
            cases h
            exact hle
      · rw [if_neg heq] at h
        cases h
        exact hle

/-- When the search has converged to the cap, EstimateGas reduces to the
re-execution block of txpool.go lines 1027-1043 at that cap. -/
theorem estimateGas_at_cap (reqGasCap : Nat) (argsGas : Option Nat)
    (blockMaxGas : Option Int) (exec : Executor)
    (hcap : TxGas ≤ reqGasCap)
    (hconv : BinSearch (TxGas - 1) (effectiveHi argsGas blockMaxGas reqGasCap)
      (executable exec) = .ok (effectiveHi argsGas blockMaxGas reqGasCap)) :
    EstimateGas reqGasCap argsGas blockMaxGas exec =
      (match executable exec (effectiveHi argsGas blockMaxGas reqGasCap) with
      | .error e => .error (.fromExec e)
      | .ok (failed, result) =>
        if failed then
          match result with
          | some r =>
            if r.vmError ≠ errOutOfGas then
              if r.vmError = errExecutionReverted then .error (.revertWithReason r.ret)
              else .error (.vmVerbatim r.vmError)
            else .error (.capExceeded (effectiveHi argsGas blockMaxGas reqGasCap))
          | none => .error (.capExceeded (effectiveHi argsGas blockMaxGas reqGasCap))
        else .ok (effectiveHi argsGas blockMaxGas reqGasCap)) := by
  have hnotlt : ¬ reqGasCap < TxGas := by omega
  rw [estimateGas_eq reqGasCap argsGas blockMaxGas exec hnotlt, hconv]
  simp

/-- C2: when the binary search of EstimateGas converges to the effective
cap, the call is executed once more at the cap: a revert there surfaces
the revert-reason error, out-of-gas surfaces the distinct allowance
error naming the cap, any other VM error is surfaced verbatim, and every
successful answer of EstimateGas is bounded by the cap. -/
theorem estimateGas_cap_recheck (reqGasCap : Nat) (argsGas : Option Nat)
    (blockMaxGas : Option Int) (exec : Executor)
    (hcap : TxGas ≤ reqGasCap)
    (hconv : BinSearch (TxGas - 1) (effectiveHi argsGas blockMaxGas reqGasCap)
      (executable exec) = .ok (effectiveHi argsGas blockMaxGas reqGasCap)) :
    (∀ r, exec (effectiveHi argsGas blockMaxGas reqGasCap) = .ok r →
      r.vmError = errExecutionReverted →
      EstimateGas reqGasCap argsGas blockMaxGas exec = .error (.revertWithReason r.ret))
    ∧ (∀ r, exec (effectiveHi argsGas blockMaxGas reqGasCap) = .ok r →
      r.vmError = errOutOfGas →
      EstimateGas reqGasCap argsGas blockMaxGas exec =
        .error (.capExceeded (effectiveHi argsGas blockMaxGas reqGasCap)))
    ∧ (∀ r, exec (effectiveHi argsGas blockMaxGas reqGasCap) = .ok r →
      r.vmError ≠ "" → r.vmError ≠ errOutOfGas → r.vmError ≠ errExecutionReverted →
      EstimateGas reqGasCap argsGas blockMaxGas exec = .error (.vmVerbatim r.vmError))
    ∧ (∀ g, EstimateGas reqGasCap argsGas blockMaxGas exec = .ok g →
      g ≤ effectiveHi argsGas blockMaxGas reqGasCap) := by
  have hat := estimateGas_at_cap reqGasCap argsGas blockMaxGas exec hcap hconv
  refine ⟨?_, ?_, ?_, ?_⟩
  · intro r hr hv
    have hne : r.vmError ≠ "" := by rw [hv]; decide
    have hoog : r.vmError ≠ errOutOfGas := by rw [hv]; decide
    rw [hat]
    simp only [executable, hr, vmError_decide_true r.vmError hne, if_true,
      if_pos hoog, if_pos hv]
  · intro r hr hv
    have hne : r.vmError ≠ "" := by rw [hv]; decide
    have hoog : ¬ r.vmError ≠ errOutOfGas := by rw [hv]; simp
    rw [hat]
    simp only [executable, hr, vmError_decide_true r.vmError hne, if_true, if_neg hoog]
  · intro r hr hne hoog hrev
    rw [hat]
    simp only [executable, hr, vmError_decide_true r.vmError hne, if_true,
      if_pos hoog, if_neg hrev]
  · intro g h
    exact estimateGas_le reqGasCap argsGas blockMaxGas exec g h

/-- Concrete executor that reverts at every gas allowance. -/
def execRevertW : Executor := fun _ => .ok ⟨"execution reverted", [1, 2], 0, 0⟩

/-- Witness for C2: with an always-reverting executor and cap 21000 the
search converges to the cap and EstimateGas surfaces the revert reason. -/
theorem estimateGas_cap_recheck_witness :
    EstimateGas 21000 none none execRevertW =
      .error (.revertWithReason [1, 2]) :=
  (estimateGas_cap_recheck 21000 none none execRevertW (by decide) rfl).1
    ⟨"execution reverted", [1, 2], 0, 0⟩ rfl rfl

/-- C8: classification of a gas probe in EstimateGas: an intrinsic-gas
failure is classified failed with no surfaced error and the search
continues in the upper half; any other executor-level error is surfaced
by the probe, aborts the whole search and is returned by EstimateGas;
a response with non-empty VM error is classified failed; a response with
empty VM error is classified successful. -/
theorem probe_classification (exec : Executor) (g lo hi : Nat)
    (reqGasCap : Nat) (argsGas : Option Nat) (blockMaxGas : Option Int) :
    (exec g = .error .intrinsicGas → executable exec g = .ok (true, none))
    ∧ (∀ msg, exec g = .error (.other msg) → executable exec g = .error msg)
    ∧ (∀ r, exec g = .ok r → r.vmError ≠ "" → executable exec g = .ok (true, some r))
    ∧ (∀ r, exec g = .ok r → r.vmError = "" → executable exec g = .ok (false, some r))
    ∧ (lo + 1 < hi → executable exec ((hi + lo) / 2) = .ok (true, none) →
      BinSearch lo hi (executable exec) = BinSearch ((hi + lo) / 2) hi (executable exec))
    ∧ (∀ msg, lo + 1 < hi → executable exec ((hi + lo) / 2) = .error msg →
      BinSearch lo hi (executable exec) = .error msg)
    ∧ (∀ msg, TxGas ≤ reqGasCap →
      BinSearch (TxGas - 1) (effectiveHi argsGas blockMaxGas reqGasCap)
        (executable exec) = .error msg →
      EstimateGas reqGasCap argsGas blockMaxGas exec = .error (.fromExec msg)) := by
  refine ⟨?_, ?_, ?_, ?_, ?_, ?_, ?_⟩
  · intro h
    simp only [executable, h]
  · intro msg h
    simp only [executable, h]
  · intro r h hv
    simp only [executable, h, vmError_decide_true r.vmError hv]
  · intro r h hv
    simp only [executable, h, vmError_decide_false r.vmError hv]
  · intro hguard hmid
    rw [binSearch_step (executable exec) lo hi hguard, hmid]
    rfl
  · intro msg hguard hmid
    rw [binSearch_step (executable exec) lo hi hguard, hmid]
  · intro msg hcap hbin
    have hnotlt : ¬ reqGasCap < TxGas := by omega
    rw [estimateGas_eq reqGasCap argsGas blockMaxGas exec hnotlt, hbin]

/-- Concrete executor exercising all probe classifications. -/
def execProbeW : Executor := fun g =>
  if g = 10 then .error .intrinsicGas
  else if g = 11 then .error (.other "bad probe")
  else if g = 12 then .ok ⟨"some vm error", [], 0, 0⟩
  else .ok ⟨"", [], 0, 0⟩

/-- Concrete executor whose every probe fails with a hard error. -/
def execAbortW : Executor := fun _ => .error (.other "abort")

/-- Witness for C8: each classification branch evaluated at a concrete
probe, the search-step continuation on an intrinsic-gas probe, the abort
of the search on a hard probe error, and EstimateGas surfacing it. -/
theorem probe_classification_witness :
    executable execProbeW 10 = .ok (true, none)
    ∧ executable execProbeW 11 = .error "bad probe"
    ∧ executable execProbeW 12 = .ok (true, some ⟨"some vm error", [], 0, 0⟩)
    ∧ executable execProbeW 13 = .ok (false, some ⟨"", [], 0, 0⟩)
    ∧ BinSearch 9 12 (executable execProbeW) = BinSearch 10 12 (executable execProbeW)
    ∧ BinSearch 10 13 (executable execProbeW) = .error "bad probe"
    ∧ EstimateGas 40000 none none execAbortW = .error (.fromExec "abort") :=
  ⟨(probe_classification execProbeW 10 0 0 0 none none).1 rfl,
   (probe_classification execProbeW 11 0 0 0 none none).2.1 "bad probe" rfl,
   (probe_classification execProbeW 12 0 0 0 none none).2.2.1
     ⟨"some vm error", [], 0, 0⟩ rfl (by decide),
   (probe_classification execProbeW 13 0 0 0 none none).2.2.2.1
     ⟨"", [], 0, 0⟩ rfl rfl,
   (probe_classification execProbeW 0 9 12 0 none none).2.2.2.2.1 (by decide) rfl,
   (probe_classification execProbeW 0 10 13 0 none none).2.2.2.2.2.1 "bad probe"
     (by decide) rfl,
   (probe_classification execAbortW 0 0 0 40000 none none).2.2.2.2.2.2 "abort"
     (by decide) rfl⟩

/-- Modelled from the spec: feetypes.EventTypeFee (x/fee/types) is not
under src; it is the tag of the fee-setting event emitted once per block.
Only its identity matters, so it is kept as an abstract literal. -/
def EventTypeFee : String := "fee"

/-- One attribute of an abci event. -/
structure EventAttribute where
  key : String
  value : String
  deriving DecidableEq, Repr

/-- An abci event as consumed by the base-fee fallback scan. -/
structure Event where
  type : String
  attributes : List EventAttribute
  deriving DecidableEq, Repr

/-- Base-10 digit value of a character, none for a non-digit. -/
def digitVal (c : Char) : Option Nat :=
  if c.isDigit then some (c.toNat - 48) else none

/-- Parse a non-empty all-digit character list into a natural number. -/
def parseNatDigits (cs : List Char) : Option Nat :=
  match cs with
  | [] => none
  | _ => cs.foldlM (fun a c => (digitVal c).map fun d => a * 10 + d) 0

/-- Largest value of a signed 64-bit integer. -/
def int64Max : Nat := 2 ^ 63 - 1

/-- Embedding of strconv.ParseInt with base 10 and bit size 64: optional
sign, decimal digits only, error on empty input or 64-bit overflow. -/
def parseInt64 (s : String) : Option Int :=
  match s.toList with
  | [] => none
  | '+' :: rest =>
    match parseNatDigits rest with
    | some n => if n ≤ int64Max then some (Int.ofNat n) else none
    | none => none
  | '-' :: rest =>
    match parseNatDigits rest with
    | some n => if n ≤ 2 ^ 63 then some (-(Int.ofNat n)) else none
    | none => none
  | cs =>
    match parseNatDigits cs with
    | some n => if n ≤ int64Max then some (Int.ofNat n) else none
    | none => none

/-- The match condition of the fallback loop in BackendImpl.BaseFee
(backend.go line 314): the event type is the fee event type and the
attribute list is non-empty. -/
def isFeeEvent (e : Event) : Bool :=
  e.type == EventTypeFee && decide (0 < e.attributes.length)

/-- Embedding of the reverse loop of BackendImpl.BaseFee lines 312-321:
walk the finalize-block events from the last one down, and at the first
event matching isFeeEvent parse its first attribute value; whether or not
the parse succeeds the loop stops there. -/
def revScanFee (events : List Event) : Option Int :=
  match events.reverse.find? isFeeEvent with
  | some e =>
    match e.attributes with
    | [] => none
    | a :: _ => parseInt64 a.value
  | none => none

/-- Embedding of BackendImpl.BaseFee (backend.go lines 305-331): queryRes
is the outcome of the direct fee-market query (error, no value, or a
value); on error or missing value the reverse event scan is tried, and if
it also yields nothing the original query error is returned, which is nil
exactly when the query succeeded with a nil base fee. -/
def BaseFee (queryRes : Except String (Option Int)) (finalizeBlockEvents : List Event) :
    Except String (Option Int) :=
  match queryRes with
  | .ok (some v) => .ok (some v)
  | .ok none =>
    match revScanFee finalizeBlockEvents with
    | some v => .ok (some v)
    | none => .ok none
  | .error e =>
    match revScanFee finalizeBlockEvents with
    | some v => .ok (some v)
    | none => .error e

/-- The spec-side comparator for claim C9, following the spec words: a
single forward scan that remembers the last event carrying the
fee-setting attribute and parses that event the same way the reverse
scan does. -/
def forwardLastFee (events : List Event) : Option Int :=
  match events.foldl (fun acc e => if isFeeEvent e then some e else acc) none with
  | some e =>
    match e.attributes with
    | [] => none
    | a :: _ => parseInt64 a.value
  | none => none

/-- The first match in a list extended on the right is the first match of
the prefix when one exists, and otherwise comes from the appended
element. -/
theorem find?_append_single {α : Type} (p : α → Bool) (l : List α) (a : α) :
    (l ++ [a]).find? p =
      match l.find? p with
      | some e => some e
      | none => if p a then some a else none := by
  induction l with
  | nil =>
    simp only [List.nil_append, List.find?]
    cases hp : p a with
    | false => simp
    | true => simp
  | cons b t ih =>
    by_cases hp : p b
    · rw [List.cons_append, List.find?_cons_of_pos _ hp, List.find?_cons_of_pos _ hp]
    · rw [List.cons_append, List.find?_cons_of_neg _ hp, List.find?_cons_of_neg _ hp, ih]

/-- A forward fold keeping the last match computes the first match of the
reversed list, with the accumulator as the fallback. -/
theorem foldl_last_eq_reverse_find {α : Type} (p : α → Bool) :
    ∀ (l : List α) (acc : Option α),
      l.foldl (fun acc e => if p e then some e else acc) acc =
        match l.reverse.find? p with
        | some e => some e
        | none => acc := by
  intro l
  induction l with
  | nil =>
    intro acc
    rfl
  | cons a t ih =>
    intro acc
    rw [List.foldl_cons, ih, List.reverse_cons, find?_append_single]
    cases t.reverse.find? p with
    | some e => rfl
    | none =>
      by_cases hp : p a
      · rw [if_pos hp, if_pos hp]
      · rw [if_neg hp, if_neg hp]

/-- C9: for every event list, the reverse scan used by the base-fee
fallback yields the same numeric value as the forward scan that takes the
value at the last occurrence of the fee-setting attribute: the two scan
directions are equivalent. -/
theorem rev_forward_scan_equiv (events : List Event) :
    revScanFee events = forwardLastFee events := by
  unfold revScanFee forwardLastFee
  rw [foldl_last_eq_reverse_find isFeeEvent events none]
  cases events.reverse.find? isFeeEvent with
  | some e => rfl
  | none => rfl

/-- Counterexample for C3 as stated: when the direct query fails with an
error (one of the two ways it can yield no value; state pruning is the
documented cause) and the reverse scan finds nothing parseable, BaseFee
returns that query error, not a nil value with no error. -/
theorem baseFee_query_error_cex :
    BaseFee (.error "fee market query failed") [] = .error "fee market query failed" := rfl

/-- C3 amended: when the scan finds no parseable fee-setting attribute,
BaseFee returns nil with no error if the direct query succeeded with no
value, and propagates the query error if the direct query failed. -/
theorem baseFee_no_value_resolution (queryRes : Except String (Option Int))
    (events : List Event) (hscan : revScanFee events = none) :
    (queryRes = .ok none → BaseFee queryRes events = .ok none)
    ∧ (∀ e, queryRes = .error e → BaseFee queryRes events = .error e) := by
  constructor
  · intro hq
    subst hq
    simp only [BaseFee, hscan]
  · intro e hq
    subst hq
    simp only [BaseFee, hscan]

/-- Witness for the amended C3 at a concrete unparseable event list. -/
theorem baseFee_no_value_resolution_witness :
    BaseFee (.ok none) [⟨EventTypeFee, [⟨"base_fee", "not-a-number"⟩]⟩] = .ok none :=
  (baseFee_no_value_resolution (.ok none) [⟨EventTypeFee, [⟨"base_fee", "not-a-number"⟩]⟩]
    (by decide)).1 rfl

/-- Outcome of a Go computation that either returns a value or panics. -/
inductive POut (α : Type) where
  | ok (a : α)
  | panicked (msg : String)
  deriving DecidableEq, Repr

/-- Whether an outcome is a panic. -/
def isPanicked {α : Type} : POut α → Bool
  | .ok _ => false
  | .panicked _ => true

/-- Lifecycle events of aspect (hook) contexts: WithAspectContext emits a
creation, aspectCtx.Destroy emits a destruction.  Go defer semantics run a
deferred Destroy on return and on panic alike, so the embedding of a
deferred Destroy appends the destruction on every branch including the
panicking one, while an explicit Destroy statement is skipped by an
unwinding panic. -/
inductive AspectEv where
  | created (id : Nat)
  | destroyed (id : Nat)
  deriving DecidableEq, Repr

/-- Identifiers of the contexts created in an event trace. -/
def createdIds (evs : List AspectEv) : List Nat :=
  evs.filterMap fun e =>
    match e with
    | .created i => some i
    | .destroyed _ => none

/-- Identifiers of the contexts destroyed in an event trace. -/
def destroyedIds (evs : List AspectEv) : List Nat :=
  evs.filterMap fun e =>
    match e with
    | .destroyed i => some i
    | .created _ => none

/-- An event trace is balanced when the created contexts are exactly the
destroyed ones, in order. -/
abbrev balanced (evs : List AspectEv) : Prop := createdIds evs = destroyedIds evs

/-- The fallible collaborators of Keeper.EthCall in execution order:
json.Unmarshal of the call arguments, getChainID, EVMConfig, ToMessage,
and ApplyMessageWithConfig, the last of which may also panic. -/
structure EthCallEnv where
  unmarshalArgs : Except String Unit
  chainId : Except String Unit
  evmConfig : Except String Unit
  toMessage : Except String Unit
  applyMessage : POut (Except String Rsp)
  deriving Repr

/-- Embedding of the body of Keeper.EthCall (txpool.go lines 878-923)
below the recover handler: validation and resolution errors return early
with an error and no aspect context; once WithAspectContext has run, the
deferred Destroy runs on every exit of the execution, including a panic
unwinding past it. -/
def EthCallBody (reqPresent : Bool) (env : EthCallEnv) :
    POut (Option Rsp × Option String) × List AspectEv :=
  match reqPresent with
  | false => (.ok (none, some "empty request"), [])
  | true =>
    match env.unmarshalArgs with
    | .error e => (.ok (none, some e), [])
    | .ok _ =>
      match env.chainId with
      | .error e => (.ok (none, some e), [])
      | .ok _ =>
        match env.evmConfig with
        | .error e => (.ok (none, some e), [])
        | .ok _ =>
          match env.toMessage with
          | .error e => (.ok (none, some e), [])
          | .ok _ =>
            match env.applyMessage with
            | .panicked m => (.panicked m, [.created 0, .destroyed 0])
            | .ok (.error e) => (.ok (none, some e), [.created 0, .destroyed 0])
            | .ok (.ok rsp) => (.ok (some rsp, none), [.created 0, .destroyed 0])

/-- Embedding of Keeper.EthCall (txpool.go lines 872-924) including its
deferred recover handler: a panic escaping the body is recovered and only
logged; since the Go result parameters are unnamed, the function then
returns their zero values, a nil response and a nil error. -/
def EthCall (reqPresent : Bool) (env : EthCallEnv) :
    (Option Rsp × Option String) × List AspectEv :=
  match EthCallBody reqPresent env with
  | (.ok r, evs) => (r, evs)
  | (.panicked _, evs) => ((none, none), evs)

/-- Embedding of the aspect-context bracketing of one gas-estimation probe
(the executable closure, txpool.go lines 997-1010): WithAspectContext runs
before the message execution and the deferred Destroy runs on every exit
of the probe, including a panic. -/
def estimateProbe (id : Nat) (applyRes : POut (Except ExecErr Rsp)) :
    POut (Except ExecErr Rsp) × List AspectEv :=
  (applyRes, [.created id, .destroyed id])

/-- The fallible collaborators of Keeper.traceTx in execution order:
ToMessage, construction of a named tracer (consulted only when the tracer
name is non-empty), parsing of the timeout string (consulted only when it
is non-empty), ApplyMessageWithConfig (which may panic), and
tracer.GetResult whose structured value is abstracted as a number. -/
structure TraceTxEnv where
  toMessage : Except String Unit
  tracerName : String
  tracerNew : Except String Unit
  timeoutStr : String
  timeoutParse : Except String Unit
  applyMessage : POut (Except String Rsp)
  getResult : Except String Nat
  deriving Repr

/-- Value part of Keeper.traceTx (txpool.go lines 1194-1292): the triple
of optional trace result, next unused log index, and error.  Error exits
return a zero log index; a successful execution reports the incoming log
index plus the number of logs the traced transaction emitted. -/
def traceTxCore (env : TraceTxEnv) (logIndex : Nat) :
    POut (Option Nat × Nat × Option String) :=
  match env.toMessage with
  | .error e => .ok (none, 0, some e)
  | .ok _ =>
    match (if env.tracerName ≠ "" then env.tracerNew else .ok ()) with
    | .error e => .ok (none, 0, some e)
    | .ok _ =>
      match (if env.timeoutStr ≠ "" then env.timeoutParse else .ok ()) with
      | .error e => .ok (none, 0, some e)
      | .ok _ =>
        match env.applyMessage with
        | .panicked m => .panicked m
        | .ok (.error e) => .ok (none, 0, some e)
        | .ok (.ok res) =>
          match env.getResult with
          | .error e => .ok (none, 0, some e)
          | .ok tr => .ok (some tr, logIndex + res.logs, none)

/-- Embedding of Keeper.traceTx with its aspect-context lifecycle: the
context is created before ToMessage and a deferred function destroys it
on every exit of the body, including a panic, so the event trace is the
same on all paths. -/
def traceTx (id : Nat) (env : TraceTxEnv) (logIndex : Nat) :
    POut (Option Nat × Nat × Option String) × List AspectEv :=
  (traceTxCore env logIndex, [.created id, .destroyed id])

/-- The fallible collaborators of one predecessor replay in Keeper.TraceTx
(txpool.go lines 1078-1104): ToMessage and ApplyMessageWithConfig. -/
structure PredEnv where
  toMessage : Except String Unit
  applyMessage : POut (Except String Rsp)
  deriving Repr

/-- Embedding of one iteration of the predecessor loop of Keeper.TraceTx:
the context is created first; on a conversion error, an execution error,
or success the loop destroys it with explicit Destroy calls and continues,
reporting the log count only on success; the Destroy calls are plain
statements, so a panic unwinding out of the execution skips them. -/
def replayPred (i : Nat) (p : PredEnv) : POut (Option Nat) × List AspectEv :=
  match p.toMessage with
  | .error _ => (.ok none, [.created i, .destroyed i])
  | .ok _ =>
    match p.applyMessage with
    | .panicked m => (.panicked m, [.created i])
    | .ok (.error _) => (.ok none, [.created i, .destroyed i])
    | .ok (.ok rsp) => (.ok (some rsp.logs), [.created i, .destroyed i])

/-- Embedding of the whole predecessor loop of Keeper.TraceTx: thread the
accumulated log index across the predecessors, advancing it only for a
predecessor that executed successfully, and propagate a panic. -/
def replayPreds : Nat → List PredEnv → Nat → POut Nat × List AspectEv
  | _, [], logIdx => (.ok logIdx, [])
  | i, p :: rest, logIdx =>
    match replayPred i p with
    | (.panicked m, evs) => (.panicked m, evs)
    | (.ok none, evs) =>
      let r := replayPreds (i + 1) rest logIdx
      (r.1, evs ++ r.2)
    | (.ok (some n), evs) =>
      let r := replayPreds (i + 1) rest (logIdx + n)
      (r.1, evs ++ r.2)

/-- Embedding of Keeper.TraceTx (txpool.go lines 1047-1132): replay the
predecessors to advance the log index, then trace the target transaction
through traceTx; the triple traceTx reports (whose next-log-index
component the gRPC wrapper discards) is the value of interest. -/
def TraceTx (preds : List PredEnv) (target : TraceTxEnv) :
    POut (Option Nat × Nat × Option String) × List AspectEv :=
  match replayPreds 0 preds 0 with
  | (.panicked m, evs) => (.panicked m, evs)
  | (.ok logIdx, evs) =>
    let r := traceTx preds.length target logIdx
    (r.1, evs ++ r.2)

/-- Log contribution of one predecessor to the accumulated index: the
number of logs it emitted when both its conversion and execution
succeeded, and zero otherwise. -/
def predContribution (p : PredEnv) : Nat :=
  match p.toMessage, p.applyMessage with
  | .ok _, .ok (.ok rsp) => rsp.logs
  | _, _ => 0

/-- Total log contribution of an ordered predecessor list. -/
def predLogs : List PredEnv → Nat
  | [] => 0
  | p :: rest => predContribution p + predLogs rest

/-- One entry of a block trace as Keeper.TraceBlock builds it. -/
structure TxTraceResult where
  result : Option Nat
  error : Option String
  deriving DecidableEq, Repr

/-- Lift list cons over a possibly panicking tail. -/
def mapCons (x : TxTraceResult) : POut (List TxTraceResult) → POut (List TxTraceResult)
  | .ok l => .ok (x :: l)
  | .panicked m => .panicked m

/-- Embedding of the transaction loop of Keeper.TraceBlock (txpool.go
lines 1168-1181): each transaction is traced with the running log index;
on error the entry records the error string and the log index is left
unchanged, on success the entry records the result and the log index
advances to the one traceTx reported. -/
def traceBlockLoop : Nat → List TraceTxEnv → Nat → POut (List TxTraceResult) × List AspectEv
  | _, [], _ => (.ok [], [])
  | i, t :: rest, logIdx =>
    match traceTx i t logIdx with
    | (.panicked m, evs) => (.panicked m, evs)
    | (.ok (res, newLogIdx, err), evs) =>
      match err with
      | some e =>
        let r := traceBlockLoop (i + 1) rest logIdx
        (mapCons ⟨none, some e⟩ r.1, evs ++ r.2)
      | none =>
        let r := traceBlockLoop (i + 1) rest newLogIdx
        (mapCons ⟨res, none⟩ r.1, evs ++ r.2)

/-- Embedding of Keeper.TraceBlock (txpool.go lines 1134-1191). -/
def TraceBlock (txs : List TraceTxEnv) : POut (List TxTraceResult) × List AspectEv :=
  traceBlockLoop 0 txs 0

/-- The block-trace entry a transaction environment produces, read off the
single-transaction tracer: an error entry when traceTx reports an error
and a result entry otherwise (the log index does not influence either). -/
def entryOf (env : TraceTxEnv) : TxTraceResult :=
  match traceTxCore env 0 with
  | .ok (_, _, some e) => ⟨none, some e⟩
  | .ok (res, _, none) => ⟨res, none⟩
  | .panicked _ => ⟨none, none⟩

/-- Environment in which the EthCall executor panics. -/
def ethCallPanicEnv : EthCallEnv :=
  { unmarshalArgs := .ok (), chainId := .ok (), evmConfig := .ok (),
    toMessage := .ok (), applyMessage := .panicked "executor panic" }

/-- Counterexample for C7 as stated: when the execution of an EthCall
panics, the deferred recover in Keeper.EthCall only logs the panic; the
Go result parameters are unnamed, so the call returns a nil response AND
a nil error, refuting the part of the claim that the panic is reported
as the call error result. -/
theorem ethCall_panic_not_reported_cex :
    EthCall true ethCallPanicEnv =
      ((none, none), [AspectEv.created 0, AspectEv.destroyed 0]) := rfl

/-- C7 amended: a panic during the execution of an EthCall is recovered
at the call boundary, so the call still returns normally (the process
does not crash) and the deferred aspect teardown has run, but the call
returns a nil response with a nil error instead of reporting the panic
as its error result. -/
theorem ethCall_recovery (reqPresent : Bool) (env : EthCallEnv) (m : String)
    (evs : List AspectEv)
    (h : EthCallBody reqPresent env = (.panicked m, evs)) :
    EthCall reqPresent env = ((none, none), evs) := by
  unfold EthCall
  rw [h]

/-- Witness for the amended C7 at the concrete panicking environment. -/
theorem ethCall_recovery_witness :
    EthCall true ethCallPanicEnv =
      ((none, none), [AspectEv.created 0, AspectEv.destroyed 0]) :=
  ethCall_recovery true ethCallPanicEnv "executor panic"
    [AspectEv.created 0, AspectEv.destroyed 0] rfl

/-- A non-panicking predecessor replay returns a value and the balanced
create-destroy pair of its context. -/
theorem replayPred_no_panic (i : Nat) (p : PredEnv)
    (h : isPanicked p.applyMessage = false) :
    ∃ v, replayPred i p = (.ok v, [AspectEv.created i, AspectEv.destroyed i]) := by
  unfold replayPred
  cases htm : p.toMessage with
  | error e => exact ⟨none, rfl⟩
  | ok u =>
    cases hap : p.applyMessage with
    | panicked m =>
      rw [hap] at h
      simp [isPanicked] at h
    | ok r =>
      cases r with
      | error e => exact ⟨none, rfl⟩
      | ok rsp => exact ⟨some rsp.logs, rfl⟩

/-- A non-panicking predecessor replay either skips (zero contribution)
or reports exactly its log contribution, with balanced context events in
both cases. -/
theorem replayPred_cases (i : Nat) (p : PredEnv)
    (h : isPanicked p.applyMessage = false) :
    (replayPred i p = (.ok none, [AspectEv.created i, AspectEv.destroyed i])
      ∧ predContribution p = 0)
    ∨ (∃ n, replayPred i p = (.ok (some n), [AspectEv.created i, AspectEv.destroyed i])
      ∧ predContribution p = n) := by
  unfold replayPred predContribution
  cases htm : p.toMessage with
  | error e =>
    left
    cases hap : p.applyMessage with
    | panicked m => rw [hap] at h; simp [isPanicked] at h
    | ok r => exact ⟨rfl, rfl⟩
  | ok u =>
    cases hap : p.applyMessage with
    | panicked m =>
      rw [hap] at h
      simp [isPanicked] at h
    | ok r =>
      cases r with
      | error e => left; exact ⟨rfl, rfl⟩
      | ok rsp => right; exact ⟨rsp.logs, rfl, rfl⟩

/-- The predecessor loop with no panicking predecessor returns the
accumulator advanced by the total log contribution of the list. -/
theorem replayPreds_ok : ∀ (preds : List PredEnv) (i a : Nat),
    (∀ p ∈ preds, isPanicked p.applyMessage = false) →
    (replayPreds i preds a).1 = .ok (a + predLogs preds) := by
  intro preds
  induction preds with
  | nil =>
    intro i a h
    simp [replayPreds, predLogs]
  | cons p rest ih =>
    intro i a h
    have hp : isPanicked p.applyMessage = false := h p (List.mem_cons_self p rest)
    have hrest : ∀ q ∈ rest, isPanicked q.applyMessage = false :=
      fun q hq => h q (List.mem_cons_of_mem _ hq)
    rcases replayPred_cases i p hp with ⟨hpr, hc⟩ | ⟨n, hpr, hc⟩
    · simp only [replayPreds, hpr]
      rw [ih (i + 1) a hrest]
      simp [predLogs, hc]
    · simp only [replayPreds, hpr]
      rw [ih (i + 1) (a + n) hrest]
      simp only [predLogs, hc]
      congr 1
      omega

/-- C4: a trace request with predecessors that together emit predLogs
preds logs (an erroring predecessor contributing zero without aborting
the replay) produces, for a target whose own pipeline succeeds, a trace
whose reported next-log-index is predLogs preds plus the number of logs
the target itself emits. -/
theorem traceTx_log_index_continuity (preds : List PredEnv) (target : TraceTxEnv)
    (res : Rsp) (tr : Nat)
    (hnp : ∀ p ∈ preds, isPanicked p.applyMessage = false)
    (htm : target.toMessage = .ok ())
    (htrc : target.tracerName ≠ "" → target.tracerNew = .ok ())
    (hto : target.timeoutStr ≠ "" → target.timeoutParse = .ok ())
    (happ : target.applyMessage = .ok (.ok res))
    (hgr : target.getResult = .ok tr) :
    (TraceTx preds target).1 = .ok (some tr, predLogs preds + res.logs, none) := by
  have hr := replayPreds_ok preds 0 0 hnp
  unfold TraceTx
  cases hrp : replayPreds 0 preds 0 with
  | mk r evs =>
    rw [hrp] at hr
    simp only at hr
    rw [hr]
    simp only [traceTx]
    have htrc2 : (if target.tracerName ≠ "" then target.tracerNew else .ok ()) = .ok () := by
      by_cases hname : target.tracerName ≠ ""
      · rw [if_pos hname]; exact htrc hname
      · rw [if_neg hname]
    have hto2 : (if target.timeoutStr ≠ "" then target.timeoutParse else .ok ()) = .ok () := by
      by_cases hstr : target.timeoutStr ≠ ""
      · rw [if_pos hstr]; exact hto hstr
      · rw [if_neg hstr]
    unfold traceTxCore
    rw [htm, htrc2, hto2, happ, hgr]
    rw [Nat.zero_add]

/-- A predecessor that emits three logs. -/
def predLogs3W : PredEnv := { toMessage := .ok (), applyMessage := .ok (.ok ⟨"", [], 3, 0⟩) }

/-- A predecessor whose conversion fails. -/
def predConvErrW : PredEnv := { toMessage := .error "conversion failed", applyMessage := .ok (.ok ⟨"", [], 9, 0⟩) }

/-- A predecessor whose execution fails. -/
def predExecErrW : PredEnv := { toMessage := .ok (), applyMessage := .ok (.error "execution failed") }

/-- A predecessor that emits four logs. -/
def predLogs4W : PredEnv := { toMessage := .ok (), applyMessage := .ok (.ok ⟨"", [], 4, 0⟩) }

/-- A target environment emitting five logs with trace result 77. -/
def targetOkW : TraceTxEnv :=
  { toMessage := .ok (), tracerName := "", tracerNew := .ok (),
    timeoutStr := "10s", timeoutParse := .ok (),
    applyMessage := .ok (.ok ⟨"", [], 5, 0⟩), getResult := .ok 77 }

/-- Witness for C4: two successful predecessors with three and four logs
and two erroring ones yield next-log-index 3 + 4 + 5 = 12 for a target
emitting five logs, and the erroring predecessors do not abort the
trace. -/
theorem traceTx_log_index_continuity_witness :
    (TraceTx [predLogs3W, predConvErrW, predExecErrW, predLogs4W] targetOkW).1 =
      .ok (some 77, 12, none) :=
  (traceTx_log_index_continuity [predLogs3W, predConvErrW, predExecErrW, predLogs4W]
    targetOkW ⟨"", [], 5, 0⟩ 77 (by decide) rfl
    (fun h => absurd rfl h) (fun _ => rfl) rfl rfl).trans (by decide)

/-- A trace whose executor does not panic never panics itself. -/
theorem traceTxCore_no_panic (env : TraceTxEnv) (li : Nat)
    (h : isPanicked env.applyMessage = false) (m : String) :
    traceTxCore env li ≠ .panicked m := by
  unfold traceTxCore
  cases htm : env.toMessage with
  | error e => simp
  | ok u =>
    cases htr : (if env.tracerName ≠ "" then env.tracerNew else .ok ()) with
    | error e => simp
    | ok u2 =>
      cases hti : (if env.timeoutStr ≠ "" then env.timeoutParse else .ok ()) with
      | error e => simp
      | ok u3 =>
        cases hap : env.applyMessage with
        | panicked m2 =>
          rw [hap] at h
          simp [isPanicked] at h
        | ok r =>
          cases r with
          | error e => simp
          | ok res =>
            cases hgr : env.getResult with
            | error e => simp
            | ok tr => simp

/-- The result and error parts of a trace do not depend on the incoming
log index, and on success the reported next index shifts with it. -/
theorem traceTxCore_logIdx (env : TraceTxEnv) (li : Nat) :
    traceTxCore env li =
      match traceTxCore env 0 with
      | .ok (res, n, some e) => .ok (res, n, some e)
      | .ok (res, n, none) => .ok (res, li + n, none)
      | .panicked m => .panicked m := by
  unfold traceTxCore
  cases htm : env.toMessage with
  | error e => rfl
  | ok u =>
    cases htr : (if env.tracerName ≠ "" then env.tracerNew else .ok ()) with
    | error e => rfl
    | ok u2 =>
      cases hti : (if env.timeoutStr ≠ "" then env.timeoutParse else .ok ()) with
      | error e => rfl
      | ok u3 =>
        cases hap : env.applyMessage with
        | panicked m2 => rfl
        | ok r =>
          cases r with
          | error e => rfl
          | ok res =>
            cases hgr : env.getResult with
            | error e => rfl
            | ok tr =>
              simp only
              rw [Nat.zero_add]

/-- The block-trace loop maps each non-panicking transaction to its entry
regardless of the starting index. -/
theorem traceBlockLoop_ok : ∀ (txs : List TraceTxEnv) (i li : Nat),
    (∀ t ∈ txs, isPanicked t.applyMessage = false) →
    (traceBlockLoop i txs li).1 = .ok (txs.map entryOf) := by
  intro txs
  induction txs with
  | nil =>
    intro i li h
    simp [traceBlockLoop]
  | cons t rest ih =>
    intro i li h
    have ht : isPanicked t.applyMessage = false := h t (List.mem_cons_self t rest)
    have hrest : ∀ q ∈ rest, isPanicked q.applyMessage = false :=
      fun q hq => h q (List.mem_cons_of_mem _ hq)
    have hshape := traceTxCore_logIdx t li
    cases hc : traceTxCore t 0 with
    | panicked m => exact absurd hc (traceTxCore_no_panic t 0 ht m)
    | ok v =>
      obtain ⟨res, n, err⟩ := v
      rw [hc] at hshape
      cases err with
      | some e =>
        simp only at hshape
        simp only [traceBlockLoop, traceTx, hshape]
        rw [ih (i + 1) li hrest]
        simp [mapCons, entryOf, hc, List.map_cons]
      | none =>
        simp only at hshape
        simp only [traceBlockLoop, traceTx, hshape]
        rw [ih (i + 1) (li + n) hrest]
        simp [mapCons, entryOf, hc, List.map_cons]

/-- C5: a block trace over transactions whose executors do not panic
returns exactly one entry per transaction in order: an erroring
transaction contributes an entry carrying its error string, every other
transaction still carries its successful structured result, and no
failure aborts the batch. -/
theorem traceBlock_per_tx_results (txs : List TraceTxEnv)
    (hnp : ∀ t ∈ txs, isPanicked t.applyMessage = false) :
    (TraceBlock txs).1 = .ok (txs.map entryOf)
    ∧ (txs.map entryOf).length = txs.length := by
  constructor
  · exact traceBlockLoop_ok txs 0 0 hnp
  · exact List.length_map txs entryOf

/-- A transaction environment whose trace fails with an execution error. -/
def traceFailW : TraceTxEnv :=
  { toMessage := .ok (), tracerName := "", tracerNew := .ok (),
    timeoutStr := "", timeoutParse := .ok (),
    applyMessage := .ok (.error "vm execution failed"), getResult := .ok 0 }

/-- A successful transaction environment with trace result 9. -/
def traceOk9W : TraceTxEnv :=
  { toMessage := .ok (), tracerName := "", tracerNew := .ok (),
    timeoutStr := "", timeoutParse := .ok (),
    applyMessage := .ok (.ok ⟨"", [], 2, 0⟩), getResult := .ok 9 }

/-- Witness for C5: three transactions where the second fails give three
entries with the middle one holding the error string and the outer two
holding their results. -/
theorem traceBlock_per_tx_results_witness :
    (TraceBlock [targetOkW, traceFailW, traceOk9W]).1 =
      .ok [⟨some 77, none⟩, ⟨none, some "vm execution failed"⟩, ⟨some 9, none⟩] :=
  ((traceBlock_per_tx_results [targetOkW, traceFailW, traceOk9W] (by decide)).1).trans
    (by decide)

/-- Balance is preserved by concatenation of traces. -/
theorem balanced_append (a b : List AspectEv) (ha : balanced a) (hb : balanced b) :
    balanced (a ++ b) := by
  show createdIds (a ++ b) = destroyedIds (a ++ b)
  have ha2 : createdIds a = destroyedIds a := ha
  have hb2 : createdIds b = destroyedIds b := hb
  simp only [createdIds, destroyedIds, List.filterMap_append] at ha2 hb2 ⊢
  rw [ha2, hb2]

/-- A create immediately followed by its destroy is balanced. -/
theorem balanced_pair (i : Nat) :
    balanced [AspectEv.created i, AspectEv.destroyed i] := rfl

/-- The predecessor loop leaves a balanced event trace when no
predecessor panics. -/
theorem replayPreds_balanced : ∀ (preds : List PredEnv) (i a : Nat),
    (∀ p ∈ preds, isPanicked p.applyMessage = false) →
    balanced (replayPreds i preds a).2 := by
  intro preds
  induction preds with
  | nil =>
    intro i a h
    rfl
  | cons p rest ih =>
    intro i a h
    have hp := h p (List.mem_cons_self p rest)
    have hrest : ∀ q ∈ rest, isPanicked q.applyMessage = false :=
      fun q hq => h q (List.mem_cons_of_mem _ hq)
    rcases replayPred_cases i p hp with ⟨hpr, _⟩ | ⟨n, hpr, _⟩
    · simp only [replayPreds, hpr]
      exact balanced_append _ _ (balanced_pair i) (ih (i + 1) a hrest)
    · simp only [replayPreds, hpr]
      exact balanced_append _ _ (balanced_pair i) (ih (i + 1) (a + n) hrest)

/-- The body of EthCall emits either no lifecycle events (early exits) or
the deferred create-destroy pair, on every path including a panic. -/
theorem ethCallBody_balanced (b : Bool) (env : EthCallEnv) :
    balanced (EthCallBody b env).2 := by
  rcases env with ⟨u, c, ev, tm, ap⟩
  cases b with
  | false => rfl
  | true =>
    cases u with
    | error e => rfl
    | ok uu =>
      cases c with
      | error e => rfl
      | ok cc =>
        cases ev with
        | error e => rfl
        | ok ee =>
          cases tm with
          | error e => rfl
          | ok tm2 =>
            cases ap with
            | panicked m => rfl
            | ok r =>
              cases r with
              | error e => rfl
              | ok rsp => rfl

/-- The recover wrapper of EthCall does not alter the event trace. -/
theorem ethCall_evs (b : Bool) (env : EthCallEnv) :
    (EthCall b env).2 = (EthCallBody b env).2 := by
  unfold EthCall
  cases hb : EthCallBody b env with
  | mk r evs => cases r <;> rfl

/-- C6 amended: the hook (aspect) context of a simulated call, of a
gas-estimation probe, and of a traced transaction is destroyed on every
exit path of that execution, including a panic, because those sites use
a deferred Destroy; a predecessor-replay context is destroyed on the
success and error exits of the replay loop, whose explicit Destroy calls
a panic skips. -/
theorem aspect_lifecycle_teardown :
    (∀ (reqPresent : Bool) (env : EthCallEnv), balanced (EthCall reqPresent env).2)
    ∧ (∀ (cid : Nat) (applyRes : POut (Except ExecErr Rsp)),
      balanced (estimateProbe cid applyRes).2)
    ∧ (∀ (cid : Nat) (env : TraceTxEnv) (li : Nat), balanced (traceTx cid env li).2)
    ∧ (∀ (preds : List PredEnv) (target : TraceTxEnv),
      (∀ p ∈ preds, isPanicked p.applyMessage = false) →
      balanced (TraceTx preds target).2) := by
  refine ⟨?_, ?_, ?_, ?_⟩
  · intro b env
    rw [ethCall_evs b env]
    exact ethCallBody_balanced b env
  · intro cid applyRes
    exact balanced_pair cid
  · intro cid env li
    exact balanced_pair cid
  · intro preds target hnp
    have hr := replayPreds_ok preds 0 0 hnp
    have hbal := replayPreds_balanced preds 0 0 hnp
    unfold TraceTx
    cases hrp : replayPreds 0 preds 0 with
    | mk r evs =>
      rw [hrp] at hr hbal
      simp only at hr hbal
      rw [hr]
      simp only [traceTx]
      exact balanced_append _ _ hbal (balanced_pair preds.length)

/-- A predecessor whose execution panics. -/
def predPanicW : PredEnv :=
  { toMessage := .ok (), applyMessage := .panicked "executor exploded" }

/-- Counterexample for C6 as stated: a predecessor whose execution panics
leaves its aspect context alive, because the predecessor loop of TraceTx
destroys contexts with explicit Destroy statements that an unwinding
panic skips: the trace records a creation with no matching destruction. -/
theorem aspect_leak_on_pred_replay_cex :
    createdIds (TraceTx [predPanicW] targetOkW).2 = [0]
    ∧ destroyedIds (TraceTx [predPanicW] targetOkW).2 = []
    ∧ ¬ balanced (TraceTx [predPanicW] targetOkW).2 := by decide

/-- Witness for the amended C6 at concrete environments, including a
panicking EthCall executor and a panicking probe. -/
theorem aspect_lifecycle_teardown_witness :
    balanced (EthCall true ethCallPanicEnv).2
    ∧ balanced (estimateProbe 3 (.panicked "probe panic")).2
    ∧ balanced (traceTx 5 traceFailW 0).2
    ∧ balanced (TraceTx [predLogs3W, predExecErrW] targetOkW).2 :=
  ⟨aspect_lifecycle_teardown.1 true ethCallPanicEnv,
   aspect_lifecycle_teardown.2.1 3 (.panicked "probe panic"),
   aspect_lifecycle_teardown.2.2.1 5 traceFailW 0,
   aspect_lifecycle_teardown.2.2.2 [predLogs3W, predExecErrW] targetOkW (by decide)⟩

/-- Decoded parameters of a system-contract call, kept abstract. -/
abbrev Params := List String

/-- The fields of core.Message that AspectNativeContract.applyMsg reads
into the handler context. -/
structure SysMsg where
  sender : Nat
  data : List Nat
  nonce : Nat
  gasLimit : Nat
  gasPrice : Int
  gasTipCap : Int
  gasFeeCap : Int
  deriving DecidableEq, Repr

/-- Embedding of HandlerContext (contract package): the uniform context a
registered handler receives; the opaque collaborators (sdk context,
logger, state and store accessors, evm) carry no information a claim
depends on and are omitted. -/
structure HandlerContext where
  caller : Nat
  parameters : Params
  commit : Bool
  methodName : String
  rawData : List Nat
  nonce : Nat
  gasLimit : Nat
  gasPrice : Int
  gasTipCap : Int
  gasFeeCap : Int
  deriving DecidableEq, Repr

/-- Classified dispatcher failures: a payload decode error, the
method-not-found error wrapping ErrCallContract with the requested name,
and a handler failure. -/
inductive DispErr where
  | parseErr (msg : String)
  | methodNotFound (name : String)
  | handlerErr (msg : String)
  deriving DecidableEq, Repr

/-- A handler returns output bytes and remaining gas, or fails. -/
abbrev Handler := HandlerContext → Nat → Option (List Nat) × Nat × Option DispErr

/-- Embedding of strings.ToLower as used by the dispatcher registry:
lower-case the method name character by character (method names are
ASCII). -/
def toLowerStr (s : String) : String := ⟨s.data.map Char.toLower⟩

/-- The handler context applyMsg builds for a decoded call. -/
def mkHandlerContext (msg : SysMsg) (name : String) (params : Params) (commit : Bool) :
    HandlerContext :=
  { caller := msg.sender, parameters := params, commit := commit,
    methodName := name, rawData := msg.data, nonce := msg.nonce,
    gasLimit := msg.gasLimit, gasPrice := msg.gasPrice,
    gasTipCap := msg.gasTipCap, gasFeeCap := msg.gasFeeCap }

/-- Embedding of AspectNativeContract.applyMsg (txpool.go contract part,
lines 1422-1453): decode the method name and parameters from the call
payload, look the handler up under the lower-cased method name, fail with
the classified method-not-found error (nil output, zero remaining gas)
when none is registered, and otherwise invoke exactly that handler with
the uniform context. -/
def applyMsg (handlers : String → Option Handler)
    (parseMethod : List Nat → Except String (String × Params))
    (msg : SysMsg) (gas : Nat) (commit : Bool) :
    Option (List Nat) × Nat × Option DispErr :=
  match parseMethod msg.data with
  | .error e => (none, 0, some (.parseErr e))
  | .ok (name, params) =>
    match handlers (toLowerStr name) with
    | none => (none, 0, some (.methodNotFound name))
    | some h => h (mkHandlerContext msg name params commit) gas

/-- C10: for every dispatched system-contract call whose payload decodes,
the dispatcher looks the handler up by the lower-cased decoded method
name; an unregistered name fails with the classified method-not-found
error carrying no output and zero remaining gas, and a registered name
invokes exactly that handler with a context carrying the caller address
and the decoded parameters of the request. -/
theorem applyMsg_dispatch (handlers : String → Option Handler)
    (parseMethod : List Nat → Except String (String × Params))
    (msg : SysMsg) (gas : Nat) (commit : Bool) (name : String) (params : Params)
    (hparse : parseMethod msg.data = .ok (name, params)) :
    (handlers (toLowerStr name) = none →
      applyMsg handlers parseMethod msg gas commit = (none, 0, some (.methodNotFound name)))
    ∧ (∀ h, handlers (toLowerStr name) = some h →
      applyMsg handlers parseMethod msg gas commit =
        h (mkHandlerContext msg name params commit) gas
      ∧ (mkHandlerContext msg name params commit).caller = msg.sender
      ∧ (mkHandlerContext msg name params commit).parameters = params) := by
  constructor
  · intro hnone
    simp only [applyMsg, hparse, hnone]
  · intro h hsome
    refine ⟨?_, rfl, rfl⟩
    simp only [applyMsg, hparse, hsome]

/-- A concrete registry with a single handler under the name bind. -/
def bindHandlerW : Handler := fun ctx gas => (some (ctx.caller :: ctx.rawData), gas - 7, none)

/-- Lookup function of the concrete registry. -/
def handlersW : String → Option Handler := fun name =>
  if name = "bind" then some bindHandlerW else none

/-- A concrete decoder returning the mixed-case method name Bind. -/
def parseMethodW : List Nat → Except String (String × Params) :=
  fun _ => .ok ("Bind", ["0xabc", "1"])

/-- A concrete decoder returning an unregistered method name. -/
def parseMethodMissingW : List Nat → Except String (String × Params) :=
  fun _ => .ok ("unbindAll", [])

/-- A concrete dispatched message. -/
def sysMsgW : SysMsg :=
  { sender := 77, data := [1, 2, 3], nonce := 5, gasLimit := 100000,
    gasPrice := 10, gasTipCap := 1, gasFeeCap := 11 }

/-- The concrete registry misses the lower-cased unbindAll. -/
theorem handlersW_missing : handlersW (toLowerStr "unbindAll") = none := by
  have h1 : toLowerStr "unbindAll" = "unbindall" := by decide
  rw [h1]
  unfold handlersW
  rw [if_neg (by decide)]

/-- The concrete registry resolves the lower-cased Bind. -/
theorem handlersW_bind : handlersW (toLowerStr "Bind") = some bindHandlerW := by
  have h1 : toLowerStr "Bind" = "bind" := by decide
  rw [h1]
  unfold handlersW
  rw [if_pos rfl]

/-- Witness for C10: the unregistered name fails with method-not-found
carrying no output and zero gas, and the registered mixed-case name Bind
reaches the bind handler with the caller and parameters of the request. -/
theorem applyMsg_dispatch_witness :
    applyMsg handlersW parseMethodMissingW sysMsgW 500 true =
      (none, 0, some (.methodNotFound "unbindAll"))
    ∧ applyMsg handlersW parseMethodW sysMsgW 500 true =
      bindHandlerW (mkHandlerContext sysMsgW "Bind" ["0xabc", "1"] true) 500 :=
  ⟨(applyMsg_dispatch handlersW parseMethodMissingW sysMsgW 500 true "unbindAll" []
      rfl).1 handlersW_missing,
   ((applyMsg_dispatch handlersW parseMethodW sysMsgW 500 true "Bind" ["0xabc", "1"]
      rfl).2 bindHandlerW handlersW_bind).1⟩

end ArtelaRpc
